import Mathlib

/-!
Shallow embedding of the Tetris tournament backend (server.js and
tournament-system.js): the board feature extractor, heuristic evaluator,
placement search, line clearing, the simplified game simulator, genome
identifier generation, performance bookkeeping, strategy classification and
the tournament runner.  JavaScript numbers are modelled as exact rationals
(`Rat`), board cells as `Bool` (`true` = the source's `1`, `false` = `0`),
and boards as lists of rows, matching `board[y][x]` indexing.
-/

namespace Tetris

/-- A board is a list of rows; a row is a list of cells.
`true` models an occupied cell (the source stores `1`), `false` an empty
cell (the source stores `0`). -/
abbrev Board := List (List Bool)

/-- Genome weight vector; field names follow the source
(`weights.aggregateHeight` etc. in `evaluateBoard`). -/
@[ext]
structure Weights where
  aggregateHeight : Rat
  completeLines : Rat
  holes : Rat
  bumpiness : Rat
deriving DecidableEq

/-- `board[0].length`: the column count the source loops use. -/
def boardWidth (b : Board) : Nat := (b.headD []).length

/-- A board is rectangular when every row has the width `board[0].length`. -/
def rectangular (b : Board) : Prop := ∀ row ∈ b, row.length = boardWidth b

instance (b : Board) : Decidable (rectangular b) := by
  unfold rectangular; infer_instance

/-- The cells of column `x`, top to bottom: `board[0][x], board[1][x], ...`
(out-of-range reads default to `false`, matching `undefined === 1/0` being
false in the source's cell tests). -/
def colCells (b : Board) (x : Nat) : List Bool := b.map (fun row => row.getD x false)

/-- Inner column loop of `computeBoardFeatures`, height part: `columnHeight`
is set to `board.length - y` at the first occupied cell and never changes,
so it is the number of cells from the first `true` downwards (0 if none). -/
def columnHeight : List Bool → Nat
  | [] => 0
  | true :: rest => rest.length + 1
  | false :: rest => columnHeight rest

/-- Inner column loop of `computeBoardFeatures`, holes part: after
`foundBlock` is set at the first occupied cell, every empty cell increments
`holes`; so it counts the `false` cells after the first `true`. -/
def columnHoles : List Bool → Nat
  | [] => 0
  | true :: rest => rest.countP (fun c => !c)
  | false :: rest => columnHoles rest

/-- The `heights` array of `computeBoardFeatures`. -/
def heightsOf (b : Board) : List Nat :=
  (List.range (boardWidth b)).map (fun x => columnHeight (colCells b x))

/-- Bumpiness loop: `for i < heights.length - 1, bumpiness +=
Math.abs(heights[i] - heights[i+1])`, i.e. a sum over adjacent pairs. -/
def bumpinessOf : List Nat → Nat
  | a :: c :: rest => ((a : Int) - (c : Int)).natAbs + bumpinessOf (c :: rest)
  | _ => 0

/-- `row.every(cell => cell === 1)`. -/
def isFullRow (row : List Bool) : Bool := row.all (fun c => c)

/-- The feature record returned by `computeBoardFeatures`: note that the
source returns the NEGATED aggregate height, holes and bumpiness. -/
structure BoardFeatures where
  aggregateHeight : Int
  holes : Int
  bumpiness : Int
  completeLines : Int
deriving DecidableEq

/-- `computeBoardFeatures(board)` from server.js: per-column height and
hole accumulation, adjacent-pair bumpiness, complete-line count; the
height, holes and bumpiness fields are returned negated. -/
def computeBoardFeatures (b : Board) : BoardFeatures :=
  let aggregateHeight := ((List.range (boardWidth b)).map
    (fun x => columnHeight (colCells b x))).sum
  let holes := ((List.range (boardWidth b)).map
    (fun x => columnHoles (colCells b x))).sum
  let bumpiness := bumpinessOf (heightsOf b)
  let completeLines := b.countP isFullRow
  { aggregateHeight := -(aggregateHeight : Int)
    holes := -(holes : Int)
    bumpiness := -(bumpiness : Int)
    completeLines := (completeLines : Int) }

/-- `evaluateBoard(board, weights)` from server.js: the linear combination
of the (already negated) features with the genome weights. -/
def evaluateBoard (b : Board) (w : Weights) : Rat :=
  let f := computeBoardFeatures b
  w.completeLines * (f.completeLines : Rat) +
  w.aggregateHeight * (f.aggregateHeight : Rat) +
  w.holes * (f.holes : Rat) +
  w.bumpiness * (f.bumpiness : Rat)

/-! Spec-side feature definitions, written from the claim's words (for the
refinement claim about `evaluateBoard`), to be compared with the
source-derived `computeBoardFeatures`. -/

/-- Spec: number of rows in which every cell is occupied. -/
def specCompleteLines (b : Board) : Nat :=
  b.countP (fun row => decide (∀ c ∈ row, c = true))

/-- Spec: grid height minus the index of the topmost occupied cell of the
column, and 0 for an empty column (`List.findIdx` returns the length when
no cell is occupied). -/
def specColHeight (cells : List Bool) : Nat :=
  cells.length - cells.findIdx (fun c => c)

/-- Spec: the per-column heights, left to right. -/
def specHeights (b : Board) : List Nat :=
  (List.range (boardWidth b)).map (fun x => specColHeight (colCells b x))

/-- Spec: sum over columns of the column height. -/
def specAggregateHeight (b : Board) : Nat := (specHeights b).sum

/-- Spec: cells of the column that are empty and have at least one occupied
cell above them (at a smaller index) in the same column. -/
def specColHoles (cells : List Bool) : Nat :=
  (List.range cells.length).countP
    (fun i => !(cells.getD i false) && (cells.take i).any (fun c => c))

/-- Spec: number of empty cells that have at least one occupied cell above
them in the same column, summed over all columns. -/
def specHoles (b : Board) : Nat :=
  ((List.range (boardWidth b)).map (fun x => specColHoles (colCells b x))).sum

/-- Spec: sum over adjacent column pairs of the absolute difference of
their heights. -/
def specBumpiness (b : Board) : Nat :=
  (((specHeights b).zip (specHeights b).tail).map
    (fun p => ((p.1 : Int) - (p.2 : Int)).natAbs)).sum

/-! Equivalence of the loop-derived column features with the spec-side
descriptions. -/

theorem columnHeight_eq_spec (cells : List Bool) :
    columnHeight cells = specColHeight cells := by
  induction cells with
  | nil => rfl
  | cons c rest ih =>
    cases c with
    | true => simp [columnHeight, specColHeight, List.findIdx_cons]
    | false =>
      simp only [columnHeight, specColHeight, List.findIdx_cons, cond_false,
        List.length_cons] at *
      omega

theorem countP_range_getD (p : Bool → Bool) (l : List Bool) :
    (List.range l.length).countP (fun i => p (l.getD i false)) = l.countP p := by
  induction l with
  | nil => rfl
  | cons c rest ih =>
    rw [List.length_cons, List.range_succ_eq_map, List.countP_cons,
      List.countP_map]
    simp only [List.getD_cons_zero, List.countP_cons]
    rw [← ih]
    congr 1

theorem columnHoles_eq_spec (cells : List Bool) :
    columnHoles cells = specColHoles cells := by
  induction cells with
  | nil => rfl
  | cons c rest ih =>
    unfold specColHoles at *
    rw [List.length_cons, List.range_succ_eq_map, List.countP_cons,
      List.countP_map]
    cases c with
    | true =>
      have hc : (List.range rest.length).countP
          ((fun i => !((true :: rest).getD i false) &&
            ((true :: rest).take i).any (fun c => c)) ∘ Nat.succ) =
          (List.range rest.length).countP (fun i => !(rest.getD i false)) :=
        List.countP_congr (fun i _ => by
          simp [List.getD_cons_succ, List.take_succ_cons])
      rw [hc, countP_range_getD (fun c => !c) rest]
      simp [columnHoles]
    | false =>
      have hc : (List.range rest.length).countP
          ((fun i => !((false :: rest).getD i false) &&
            ((false :: rest).take i).any (fun c => c)) ∘ Nat.succ) =
          (List.range rest.length).countP
            (fun i => !(rest.getD i false) && (rest.take i).any (fun c => c)) :=
        List.countP_congr (fun i _ => by
          simp [List.getD_cons_succ, List.take_succ_cons])
      rw [hc]
      simp [columnHoles, ih, specColHoles]

theorem bumpinessOf_eq_zip (l : List Nat) :
    bumpinessOf l =
      ((l.zip l.tail).map (fun p => ((p.1 : Int) - (p.2 : Int)).natAbs)).sum := by
  induction l with
  | nil => rfl
  | cons a rest ih =>
    cases rest with
    | nil => rfl
    | cons c rest' =>
      simp only [bumpinessOf, List.zip_cons_cons, List.tail_cons, List.map_cons,
        List.sum_cons]
      rw [ih]
      rfl

theorem isFullRow_eq_spec (row : List Bool) :
    isFullRow row = decide (∀ c ∈ row, c = true) := by
  unfold isFullRow
  by_cases h : ∀ c ∈ row, c = true
  · rw [decide_eq_true h, List.all_eq_true.mpr (fun x hx => h x hx)]
  · rw [decide_eq_false h, ← Bool.not_eq_true, List.all_eq_true]
    exact fun hall => h (fun c hc => hall c hc)

theorem heightsOf_eq_spec (b : Board) : heightsOf b = specHeights b :=
  List.map_congr_left (fun x _ => columnHeight_eq_spec (colCells b x))

/-- C1: for every nonempty rectangular grid and every weight vector, the
heuristic evaluator returns
`linesWeight * CL + heightWeight * (-AH) + holesWeight * (-H) +
bumpinessWeight * (-B)`, where `CL` counts the all-occupied rows, `AH` is
the sum of the column heights, `H` the number of covered empty cells and
`B` the adjacent-column height-difference sum, each defined from the
claim's words. -/
theorem evaluateBoard_linear_in_spec_features (b : Board) (w : Weights)
    (hb : b ≠ []) (hrect : rectangular b) :
    evaluateBoard b w =
      w.completeLines * (specCompleteLines b : Rat) +
      w.aggregateHeight * (-(specAggregateHeight b : Rat)) +
      w.holes * (-(specHoles b : Rat)) +
      w.bumpiness * (-(specBumpiness b : Rat)) := by
  have hah : ((List.range (boardWidth b)).map
      (fun x => columnHeight (colCells b x))).sum = specAggregateHeight b := by
    unfold specAggregateHeight specHeights
    rw [List.map_congr_left (fun x _ => columnHeight_eq_spec (colCells b x))]
  have hholes : ((List.range (boardWidth b)).map
      (fun x => columnHoles (colCells b x))).sum = specHoles b := by
    unfold specHoles
    rw [List.map_congr_left (fun x _ => columnHoles_eq_spec (colCells b x))]
  have hcl : b.countP isFullRow = specCompleteLines b :=
    List.countP_congr (fun row _ => by rw [isFullRow_eq_spec row])
  have hbp : bumpinessOf (heightsOf b) = specBumpiness b := by
    rw [bumpinessOf_eq_zip, heightsOf_eq_spec]
    rfl
  unfold evaluateBoard computeBoardFeatures
  rw [hah, hholes, hcl, hbp]
  push_cast
  ring

/-- C1 witness: the evaluator equation instantiated on a concrete
nonempty rectangular board and concrete weights. -/
theorem evaluateBoard_linear_in_spec_features_witness :
    ([[true, false], [true, true]] : Board) ≠ [] ∧
    rectangular [[true, false], [true, true]] ∧
    evaluateBoard [[true, false], [true, true]] ⟨1, 2, 3, 4⟩ =
      (⟨1, 2, 3, 4⟩ : Weights).completeLines *
        (specCompleteLines [[true, false], [true, true]] : Rat) +
      (⟨1, 2, 3, 4⟩ : Weights).aggregateHeight *
        (-(specAggregateHeight [[true, false], [true, true]] : Rat)) +
      (⟨1, 2, 3, 4⟩ : Weights).holes *
        (-(specHoles [[true, false], [true, true]] : Rat)) +
      (⟨1, 2, 3, 4⟩ : Weights).bumpiness *
        (-(specBumpiness [[true, false], [true, true]] : Rat)) :=
  ⟨by decide, by decide,
    evaluateBoard_linear_in_spec_features _ _ (by decide) (by decide)⟩

/-- C3 counterexample: on the 2x1 board with an occupied cell above an
empty one, `computeBoardFeatures` produces `holes = -1` and
`aggregateHeight = -2`, so the produced values are not non-negative. -/
theorem computeBoardFeatures_produces_negatives :
    ¬((computeBoardFeatures [[true], [false]]).holes ≥ 0 ∧
      (computeBoardFeatures [[true], [false]]).aggregateHeight ≥ 0) := by
  decide

/-- C3 amended: `computeBoardFeatures` returns the hole count and the
aggregate height negated, so the produced `holes` and `aggregateHeight`
fields are non-positive for every grid (equivalently, the raw counts being
negated are non-negative). -/
theorem computeBoardFeatures_holes_height_nonpos (b : Board) :
    (computeBoardFeatures b).holes ≤ 0 ∧
    (computeBoardFeatures b).aggregateHeight ≤ 0 := by
  unfold computeBoardFeatures
  exact ⟨neg_nonpos.mpr (Int.natCast_nonneg _),
    neg_nonpos.mpr (Int.natCast_nonneg _)⟩

/-! Line clearing (`clearLines` in server.js): keep the non-full rows in
order, then pad empty rows at the top until the original height is
restored; the return value is the number of full rows seen. -/

/-- `clearLines(board)` from server.js, as a pure function returning the
cleared-line count together with the updated board.  `cleared` models the
loop counter (incremented once per full row); the padding models the
`unshift` loop that adds `Array(board[0].length).fill(0)` rows on top
until the original length is restored. -/
def clearLines (b : Board) : Nat × Board :=
  let newBoard := b.filter (fun row => !(isFullRow row))
  let cleared := b.countP isFullRow
  (cleared,
    List.replicate (b.length - newBoard.length) (List.replicate (boardWidth b) false)
      ++ newBoard)

/-- C9: for every rectangular board of width at least 1, `clearLines`
returns exactly the number of all-occupied rows; the updated board has the
original height and width, contains no fully occupied row, and consists of
the non-full rows in their original order at the bottom below freshly
added all-empty rows. -/
theorem clearLines_spec (b : Board) (hrect : rectangular b)
    (hw : 1 ≤ boardWidth b) :
    (clearLines b).1 = b.countP (fun row => decide (∀ c ∈ row, c = true)) ∧
    (clearLines b).2.length = b.length ∧
    (∀ row ∈ (clearLines b).2, row.length = boardWidth b) ∧
    (∀ row ∈ (clearLines b).2, ¬(∀ c ∈ row, c = true)) ∧
    (clearLines b).2 =
      List.replicate (clearLines b).1 (List.replicate (boardWidth b) false) ++
        b.filter (fun row => !(isFullRow row)) := by
  have hlenf : (b.filter (fun row => !(isFullRow row))).length ≤ b.length :=
    List.length_filter_le _ b
  have hcount : b.length - (b.filter (fun row => !(isFullRow row))).length =
      b.countP isFullRow := by
    rw [← List.countP_eq_length_filter]
    have h := List.length_eq_countP_add_countP (p := isFullRow) (l := b)
    have hco : b.countP (fun row => !(isFullRow row)) =
        b.countP (fun a => decide ¬(isFullRow a = true)) :=
      List.countP_congr (fun row _ => by cases isFullRow row <;> simp)
    omega
  refine ⟨List.countP_congr (fun row _ => by rw [isFullRow_eq_spec row]), ?_, ?_, ?_, ?_⟩
  · show (List.replicate _ _ ++ _).length = b.length
    rw [List.length_append, List.length_replicate]
    omega
  · intro row hrow
    rcases List.mem_append.mp hrow with hmem | hmem
    · rw [List.eq_of_mem_replicate hmem, List.length_replicate]
    · exact hrect row (List.mem_filter.mp hmem).1
  · intro row hrow hfull
    rcases List.mem_append.mp hrow with hmem | hmem
    · have hrow0 := List.eq_of_mem_replicate hmem
      have hfalse : false ∈ row := by
        rw [hrow0]
        exact List.mem_replicate.mpr ⟨by omega, rfl⟩
      exact absurd (hfull false hfalse) (by simp)
    · have hcond := (List.mem_filter.mp hmem).2
      rw [Bool.not_eq_true', isFullRow_eq_spec] at hcond
      exact absurd hfull (by simpa using hcond)
  · show List.replicate (b.length - _) _ ++ _ = List.replicate (b.countP isFullRow) _ ++ _
    rw [hcount]

/-! Placement search (`canPlace`, `placePiece`, `findBestPlacement` in
server.js). -/

/-- `canPlace(board, x, y)`: in bounds and the cell is empty.  Reading a
missing cell with `getD _ false` models `undefined === 0` being false. -/
def canPlace (b : Board) (x y : Nat) : Bool :=
  decide (y < b.length) && decide (x < boardWidth b) &&
    ((b.getD y []).getD x false == false)

/-- Writing `1` into cell `(x, y)` of a (copied) board:
`testBoard[y][x] = 1` and `placePiece`'s `newBoard[placement.y][placement.x] = 1`. -/
def setCell (b : Board) (x y : Nat) : Board :=
  b.set y ((b.getD y []).set x true)

/-- `placePiece(board, placement)` from server.js. -/
def placePiece (b : Board) (p : Nat × Nat) : Board := setCell b p.1 p.2

/-- The inner `y` loop of `findBestPlacement`: the first `y` (top to
bottom) where the piece can be placed in column `x`, if any. -/
def firstPlaceableY (b : Board) (x : Nat) : Option Nat :=
  (List.range b.length).find? (fun y => canPlace b x y)

/-- `findBestPlacement(board, pieceType, weights)` from server.js: scan
columns left to right, take each column's first placeable `y`, score the
resulting board, and keep the strictly better candidate (`score >
bestScore`).  The `-Infinity` initial `bestScore` together with the null
initial placement is modelled by a `none` accumulator (the first candidate
always wins against `-Infinity`).  `pieceType` is accepted and ignored,
exactly as in the source's simplified placement. -/
def findBestPlacement (b : Board) (pieceType : Nat) (w : Weights) :
    Option (Nat × Nat) :=
  ((List.range (boardWidth b)).foldl
    (fun acc x =>
      match firstPlaceableY b x with
      | none => acc
      | some y =>
        let score := evaluateBoard (setCell b x y) w
        match acc with
        | none => some (score, (x, y))
        | some (bestScore, bestPlacement) =>
          if bestScore < score then some (score, (x, y))
          else some (bestScore, bestPlacement))
    none).map (fun r => r.2)

/-- The candidate placement contributed by column `x`, if any. -/
def candAt (b : Board) (x : Nat) : Option (Nat × Nat) :=
  (firstPlaceableY b x).map (fun y => (x, y))

/-- All candidate placements, in the scan order of `findBestPlacement`. -/
def candidates (b : Board) : List (Nat × Nat) :=
  (List.range (boardWidth b)).filterMap (candAt b)

/-- The evaluation score of a candidate placement. -/
def placeScore (b : Board) (w : Weights) (c : Nat × Nat) : Rat :=
  evaluateBoard (setCell b c.1 c.2) w

/-- One accumulator update of the `findBestPlacement` scan. -/
def fbpStep (b : Board) (w : Weights) (acc : Option (Rat × (Nat × Nat)))
    (c : Nat × Nat) : Option (Rat × (Nat × Nat)) :=
  match acc with
  | none => some (placeScore b w c, c)
  | some (bs, bp) =>
    if bs < placeScore b w c then some (placeScore b w c, c) else some (bs, bp)

theorem foldl_filterMap_option {α β γ : Type} (f : α → Option β)
    (g : γ → β → γ) (l : List α) (init : γ) :
    (l.filterMap f).foldl g init =
      l.foldl (fun acc a => match f a with | none => acc | some c => g acc c)
        init := by
  induction l generalizing init with
  | nil => rfl
  | cons a rest ih =>
    cases hfa : f a with
    | none => simp [List.filterMap_cons, hfa, ih]
    | some c => simp [List.filterMap_cons, hfa, ih]

theorem findBestPlacement_eq_fold (b : Board) (pt : Nat) (w : Weights) :
    findBestPlacement b pt w =
      ((candidates b).foldl (fbpStep b w) none).map (fun r => r.2) := by
  unfold findBestPlacement candidates
  rw [foldl_filterMap_option]
  congr 1
  congr 1
  funext acc x
  cases hy : firstPlaceableY b x with
  | none => simp [candAt, hy]
  | some y =>
    cases acc with
    | none => simp [candAt, hy, fbpStep, placeScore]
    | some p => simp [candAt, hy, fbpStep, placeScore]

theorem pairwise_filterMap_of_pairwise {α β : Type} (R : α → α → Prop)
    (S : β → β → Prop) (f : α → Option β)
    (h : ∀ a a' c c', R a a' → f a = some c → f a' = some c' → S c c') :
    ∀ (l : List α), l.Pairwise R → (l.filterMap f).Pairwise S := by
  intro l
  induction l with
  | nil => intro _; simp
  | cons a rest ih =>
    intro hl
    rcases hl with _ | ⟨ha, hrest⟩
    rw [List.filterMap_cons]
    cases hfa : f a with
    | none => exact ih hrest
    | some c =>
      refine List.Pairwise.cons ?_ (ih hrest)
      intro d hd
      obtain ⟨a', ha', hfa'⟩ := List.mem_filterMap.mp hd
      exact h a a' c d (ha a' ha') hfa hfa'

theorem candAt_fst {b : Board} {x : Nat} {c : Nat × Nat}
    (h : candAt b x = some c) : c.1 = x := by
  unfold candAt at h
  cases hy : firstPlaceableY b x with
  | none => rw [hy] at h; exact absurd h (by simp)
  | some y => rw [hy] at h; simp at h; rw [← h]

theorem candidates_pairwise (b : Board) :
    (candidates b).Pairwise (fun c d => c.1 < d.1) := by
  unfold candidates
  refine pairwise_filterMap_of_pairwise (· < ·) _ (candAt b) ?_ _
    (List.pairwise_lt_range _)
  intro a a' c c' hR hfa hfa'
  rw [candAt_fst hfa, candAt_fst hfa']
  exact hR

theorem fbpFold_spec (b : Board) (w : Weights) :
    ∀ (l : List (Nat × Nat)) (c0 : Nat × Nat),
      l.Pairwise (fun c d => c.1 < d.1) → (∀ d ∈ l, c0.1 < d.1) →
      ∃ c, l.foldl (fbpStep b w) (some (placeScore b w c0, c0)) =
          some (placeScore b w c, c) ∧
        (c = c0 ∨ c ∈ l) ∧
        placeScore b w c0 ≤ placeScore b w c ∧
        (∀ d ∈ l, placeScore b w d ≤ placeScore b w c) ∧
        (placeScore b w c = placeScore b w c0 → c = c0) ∧
        (∀ d ∈ l, placeScore b w d = placeScore b w c → c.1 ≤ d.1) := by
  intro l
  induction l with
  | nil =>
    intro c0 _ _
    exact ⟨c0, rfl, Or.inl rfl, le_refl _, by simp, fun _ => rfl, by simp⟩
  | cons a rest ih =>
    intro c0 hpw h0
    rcases hpw with _ | ⟨ha, hrest⟩
    rw [List.foldl_cons]
    by_cases hlt : placeScore b w c0 < placeScore b w a
    · have hstep : fbpStep b w (some (placeScore b w c0, c0)) a =
          some (placeScore b w a, a) := by
        simp [fbpStep, hlt]
      rw [hstep]
      obtain ⟨c, hfold, hmem, hge, hub, htie0, hties⟩ := ih a hrest ha
      refine ⟨c, hfold, ?_, le_trans (le_of_lt hlt) hge, ?_, ?_, ?_⟩
      · rcases hmem with rfl | hmem
        · exact Or.inr (List.mem_cons_self _ _)
        · exact Or.inr (List.mem_cons_of_mem _ hmem)
      · intro d hd
        rcases List.mem_cons.mp hd with rfl | hd
        · exact hge
        · exact hub d hd
      · intro hceq
        exact absurd hceq (ne_of_gt (lt_of_lt_of_le hlt hge))
      · intro d hd hde
        rcases List.mem_cons.mp hd with rfl | hd
        · rw [htie0 hde.symm]
        · exact hties d hd hde
    · have hstep : fbpStep b w (some (placeScore b w c0, c0)) a =
          some (placeScore b w c0, c0) := by
        simp [fbpStep, hlt]
      rw [hstep]
      have h0rest : ∀ d ∈ rest, c0.1 < d.1 :=
        fun d hd => h0 d (List.mem_cons_of_mem a hd)
      obtain ⟨c, hfold, hmem, hge, hub, htie0, hties⟩ := ih c0 hrest h0rest
      have hale : placeScore b w a ≤ placeScore b w c0 := le_of_not_lt hlt
      refine ⟨c, hfold, ?_, hge, ?_, htie0, ?_⟩
      · rcases hmem with rfl | hmem
        · exact Or.inl rfl
        · exact Or.inr (List.mem_cons_of_mem _ hmem)
      · intro d hd
        rcases List.mem_cons.mp hd with rfl | hd
        · exact le_trans hale hge
        · exact hub d hd
      · intro d hd hde
        rcases List.mem_cons.mp hd with rfl | hd
        · have hc0 : placeScore b w c = placeScore b w c0 :=
            le_antisymm (hde ▸ hale) hge
          rw [htie0 hc0]
          exact le_of_lt (h0 d (List.mem_cons_self _ _))
        · exact hties d hd hde

/-- C4: whenever `findBestPlacement` returns a placement, that placement
is a candidate of the scan, its score is maximal among all candidates,
and among the candidates attaining the maximal score it is the first one
in scan order, i.e. the one with the lowest column index `x`. -/
theorem findBestPlacement_first_of_maxima (b : Board) (pt : Nat)
    (w : Weights) (c : Nat × Nat) (h : findBestPlacement b pt w = some c) :
    c ∈ candidates b ∧
    (∀ d ∈ candidates b, placeScore b w d ≤ placeScore b w c) ∧
    (∀ d ∈ candidates b, placeScore b w d = placeScore b w c → c.1 ≤ d.1) := by
  rw [findBestPlacement_eq_fold] at h
  have hpw := candidates_pairwise b
  cases hc : candidates b with
  | nil => rw [hc] at h; exact absurd h (by simp)
  | cons c0 rest =>
    rw [hc] at h hpw
    rcases hpw with _ | ⟨ha, hrest⟩
    rw [List.foldl_cons] at h
    have hstep : fbpStep b w none c0 = some (placeScore b w c0, c0) := rfl
    rw [hstep] at h
    obtain ⟨c', hfold, hmem, hge, hub, htie0, hties⟩ :=
      fbpFold_spec b w rest c0 hrest ha
    rw [hfold] at h
    simp only [Option.map_some'] at h
    have hcc : c' = c := by exact Option.some_injective _ h
    subst hcc
    refine ⟨?_, ?_, ?_⟩
    · rcases hmem with rfl | hmem
      · exact List.mem_cons_self _ _
      · exact List.mem_cons_of_mem _ hmem
    · intro d hd
      rcases List.mem_cons.mp hd with rfl | hd
      · exact hge
      · exact hub d hd
    · intro d hd hde
      rcases List.mem_cons.mp hd with rfl | hd
      · rw [htie0 hde.symm]
      · exact hties d hd hde

/-- C4 witness: on a one-row two-column empty board with all-zero weights,
both candidate placements tie and the scan returns the leftmost one. -/
theorem findBestPlacement_first_of_maxima_witness :
    findBestPlacement [[false, false]] 0 ⟨0, 0, 0, 0⟩ = some (0, 0) ∧
    ((0, 0) ∈ candidates [[false, false]] ∧
     (∀ d ∈ candidates [[false, false]],
        placeScore [[false, false]] ⟨0, 0, 0, 0⟩ d ≤
          placeScore [[false, false]] ⟨0, 0, 0, 0⟩ (0, 0)) ∧
     (∀ d ∈ candidates [[false, false]],
        placeScore [[false, false]] ⟨0, 0, 0, 0⟩ d =
          placeScore [[false, false]] ⟨0, 0, 0, 0⟩ (0, 0) → (0, 0).1 ≤ d.1)) :=
  ⟨by with_unfolding_all decide,
    findBestPlacement_first_of_maxima [[false, false]] 0 ⟨0, 0, 0, 0⟩ (0, 0)
      (by with_unfolding_all decide)⟩

/-- C9 witness: the cleared-line count on a concrete rectangular board of
width 2 with one full row. -/
theorem clearLines_spec_witness :
    rectangular [[true, true], [false, true]] ∧
    1 ≤ boardWidth [[true, true], [false, true]] ∧
    (clearLines [[true, true], [false, true]]).1 =
      ([[true, true], [false, true]] : Board).countP
        (fun row => decide (∀ c ∈ row, c = true)) :=
  ⟨by decide, by decide,
    (clearLines_spec [[true, true], [false, true]] (by decide) (by decide)).1⟩

/-! The simplified game simulator (`simulateSingleGame` in server.js). -/

/-- The tournament configuration object built in `runTournament`. -/
structure SimConfig where
  gamesPerGenome : Nat
  maxPieces : Nat
  boardWidth : Nat
  boardHeight : Nat
  pieceTypes : Nat
deriving DecidableEq

/-- The result object of `simulateSingleGame`; `survivalTime` is
`pieces * 2` in the source. -/
structure SimResult where
  score : Nat
  lines : Nat
  pieces : Nat
  survivalTime : Nat
deriving DecidableEq

/-- `const lineScores = [0, 100, 300, 500, 800]`. -/
def lineScores : List Nat := [0, 100, 300, 500, 800]

/-- The `while (pieces < config.maxPieces)` loop of `simulateSingleGame`,
written with the remaining piece budget as structural fuel.  Each pass
draws a piece type from the random stream (`Math.floor(rng() *
config.pieceTypes)`; the stream is indexed by the piece counter, one draw
per pass), asks `findBestPlacement` for a placement, stops on `null`
(game over), otherwise places the piece, clears lines, adds the Tetris
line score and continues. -/
def simGameLoop (cfg : SimConfig) (w : Weights) (rng : Nat → Rat) :
    Nat → Board → Nat → Nat → Nat → SimResult
  | 0, _, score, lines, pieces => ⟨score, lines, pieces, pieces * 2⟩
  | fuel + 1, board, score, lines, pieces =>
    let pieceType := (rng pieces * cfg.pieceTypes).floor.toNat
    match findBestPlacement board pieceType w with
    | none => ⟨score, lines, pieces, pieces * 2⟩
    | some placement =>
      let board1 := placePiece board placement
      let cb := clearLines board1
      simGameLoop cfg w rng fuel cb.2 (score + lineScores.getD (min cb.1 4) 0)
        (lines + cb.1) (pieces + 1)

/-- `simulateSingleGame(genome, config, rng)` from server.js: play on an
all-empty `boardHeight x boardWidth` board until `maxPieces` pieces are
placed or no placement exists.  The seeded `seedrandom` generator is
modelled as an abstract stream of rationals in its place. -/
def simulateSingleGame (genome : Weights) (cfg : SimConfig)
    (rng : Nat → Rat) : SimResult :=
  simGameLoop cfg genome rng cfg.maxPieces
    (List.replicate cfg.boardHeight (List.replicate cfg.boardWidth false)) 0 0 0

theorem simGameLoop_pieces_le (cfg : SimConfig) (w : Weights)
    (rng : Nat → Rat) :
    ∀ (fuel : Nat) (board : Board) (score lines pieces : Nat),
      (simGameLoop cfg w rng fuel board score lines pieces).pieces ≤
        pieces + fuel := by
  intro fuel
  induction fuel with
  | zero => intro board score lines pieces; exact Nat.le_refl _
  | succ n ih =>
    intro board score lines pieces
    unfold simGameLoop
    dsimp only
    cases h : findBestPlacement board ((rng pieces * cfg.pieceTypes).floor.toNat) w with
    | none => dsimp only; omega
    | some p =>
      dsimp only
      exact le_trans (ih _ _ _ _) (by omega)

/-- C6: for every genome, every configuration (at least one board row, so
that the source's `board[0]` access is defined) and every random stream,
the simulated game terminates (`simulateSingleGame` is a total function,
structurally recursive on the remaining piece budget) and the number of
pieces placed in the returned result is at most `config.maxPieces`. -/
theorem simulateSingleGame_pieces_le_maxPieces (genome : Weights)
    (cfg : SimConfig) (rng : Nat → Rat) (hh : 0 < cfg.boardHeight) :
    (simulateSingleGame genome cfg rng).pieces ≤ cfg.maxPieces := by
  unfold simulateSingleGame
  have h := simGameLoop_pieces_le cfg genome rng cfg.maxPieces
    (List.replicate cfg.boardHeight (List.replicate cfg.boardWidth false)) 0 0 0
  omega

/-- C6 witness: a concrete 2x2 configuration with a 3-piece budget and a
constant random stream. -/
theorem simulateSingleGame_pieces_le_maxPieces_witness :
    0 < (⟨1, 3, 2, 2, 7⟩ : SimConfig).boardHeight ∧
    (simulateSingleGame ⟨0, 0, 0, 0⟩ ⟨1, 3, 2, 2, 7⟩ (fun _ => 0)).pieces ≤
      (⟨1, 3, 2, 2, 7⟩ : SimConfig).maxPieces :=
  ⟨by decide,
    simulateSingleGame_pieces_le_maxPieces ⟨0, 0, 0, 0⟩ ⟨1, 3, 2, 2, 7⟩
      (fun _ => 0) (by decide)⟩

/-! Genome identifiers (`generateHash`, `createGenomeId` in
tournament-system.js). -/

/-- Left-pad a string with `'0'` to the given length (`padStart(n, '0')`). -/
def padLeftZero (n : Nat) (s : String) : String :=
  ⟨List.replicate (n - s.length) '0' ++ s.data⟩

/-- `Number.prototype.toFixed(6)` for a non-negative value: the integer
`n` with `n / 10^6` closest to `x`, the larger one on ties, rendered with
exactly six fraction digits. -/
def toFixed6Pos (x : Rat) : String :=
  let n := (x * 1000000 + 1 / 2).floor.toNat
  toString (n / 1000000) ++ "." ++ padLeftZero 6 (toString (n % 1000000))

/-- `Number.prototype.toFixed(6)`: a negative value renders as `"-"`
followed by the rendering of its negation. -/
def toFixed6 (x : Rat) : String :=
  if x < 0 then "-" ++ toFixed6Pos (-x) else toFixed6Pos x

/-- JavaScript `ToInt32`: wrap into `[-2^31, 2^31)`. -/
def toInt32 (n : Int) : Int := (n + 2 ^ 31) % 2 ^ 32 - 2 ^ 31

/-- One character step of `generateHash`:
`hash = ((hash << 5) - hash) + str.charCodeAt(i); hash = hash & hash`.
`hash << 5` truncates to 32 bits, the subtraction and addition are exact,
and `hash & hash` truncates again. -/
def hashStep (h : Int) (c : Char) : Int :=
  toInt32 (toInt32 (h * 32) - h + (c.toNat : Int))

/-- The template string hashed by `generateHash`:
the four weights rendered with `toFixed(6)` and joined with `|`. -/
def weightsKey (w : Weights) : String :=
  toFixed6 w.aggregateHeight ++ "|" ++ toFixed6 w.completeLines ++ "|" ++
    toFixed6 w.holes ++ "|" ++ toFixed6 w.bumpiness

/-- An uppercase hexadecimal digit. -/
def hexDigit (n : Nat) : Char :=
  if n < 10 then Char.ofNat (48 + n) else Char.ofNat (55 + n)

/-- Digit-accumulation loop for `toString(16)`; the fuel only bounds the
digit count (32 digits cover every value below `16^32`, far above the
32-bit hashes rendered here). -/
def toHexAux : Nat → Nat → List Char → List Char
  | 0, _, acc => acc
  | fuel + 1, n, acc =>
    if n = 0 then acc else toHexAux fuel (n / 16) (hexDigit (n % 16) :: acc)

/-- `n.toString(16).toUpperCase()` for natural `n`. -/
def toHexUpper (n : Nat) : String :=
  if n = 0 then "0" else ⟨toHexAux 32 n []⟩

/-- `generateHash(weights)` from tournament-system.js:
`Math.abs(hash).toString(16).toUpperCase().padStart(8, '0')` of the
character fold over the weight key string. -/
def generateHash (w : Weights) : String :=
  padLeftZero 8 (toHexUpper ((weightsKey w).data.foldl hashStep 0).natAbs)

/-- `createGenomeId(weights, generation)` from tournament-system.js:
`TETRIS-<hash>-<generation>`. -/
def createGenomeId (w : Weights) (generation : Nat) : String :=
  "TETRIS-" ++ generateHash w ++ "-" ++ toString generation

set_option maxRecDepth 8000 in
/-- C2 counterexample: two genomes with identical (all-zero) weight
vectors but generations 0 and 1 receive different identifiers, because
`createGenomeId` appends the generation number after the weight hash. -/
theorem createGenomeId_differs_across_generations :
    createGenomeId ⟨0, 0, 0, 0⟩ 0 ≠ createGenomeId ⟨0, 0, 0, 0⟩ 1 := by
  with_unfolding_all decide

/-- C2 amended: the identifier is a pure function of the weight vector
and the generation number together: the hash component depends only on
the weights, and genomes constructed with identical weights and identical
generation produce identical identifiers. -/
theorem createGenomeId_pure_in_weights_and_generation (w₁ w₂ : Weights)
    (g₁ g₂ : Nat) (hw : w₁ = w₂) (hg : g₁ = g₂) :
    generateHash w₁ = generateHash w₂ ∧
    createGenomeId w₁ g₁ = createGenomeId w₂ g₂ := by
  subst hw; subst hg; exact ⟨rfl, rfl⟩

/-- C2 witness: the amended purity statement at concrete weights and
generation. -/
theorem createGenomeId_pure_in_weights_and_generation_witness :
    generateHash ⟨1, 2, 3, 4⟩ = generateHash ⟨1, 2, 3, 4⟩ ∧
    createGenomeId ⟨1, 2, 3, 4⟩ 5 = createGenomeId ⟨1, 2, 3, 4⟩ 5 :=
  createGenomeId_pure_in_weights_and_generation ⟨1, 2, 3, 4⟩ ⟨1, 2, 3, 4⟩ 5 5
    rfl rfl

/-! Strategy classification (`classifyStrategy` in tournament-system.js). -/

/-- `classifyStrategy(weights)`: the absolute weights are normalized by
their total and compared against fixed thresholds.  For the all-zero
vector the source divides by a zero total, producing NaN ratios whose
comparisons are all false; `Rat` division by zero yields 0 with the same
all-false guards, so both fall through to "balanced". -/
def classifyStrategy (w : Weights) : String :=
  let heightFocus := |w.aggregateHeight|
  let lineFocus := |w.completeLines|
  let holeFocus := |w.holes|
  let smoothnessFocus := |w.bumpiness|
  let total := heightFocus + lineFocus + holeFocus + smoothnessFocus
  if lineFocus / total > 2 / 5 then "aggressive-line-clearer"
  else if heightFocus / total > 2 / 5 then "height-manager"
  else if holeFocus / total > 2 / 5 then "hole-avoider"
  else if smoothnessFocus / total > 3 / 10 then "smooth-builder"
  else "balanced"

/-- C10: `classifyStrategy` is total and returns one of exactly five
strings, and on the all-zero weight vector (zero normalizing total,
unguarded divisions) it does not fault and returns "balanced". -/
theorem classifyStrategy_five_values_and_balanced_on_zero :
    (∀ w : Weights,
      classifyStrategy w = "aggressive-line-clearer" ∨
      classifyStrategy w = "height-manager" ∨
      classifyStrategy w = "hole-avoider" ∨
      classifyStrategy w = "smooth-builder" ∨
      classifyStrategy w = "balanced") ∧
    classifyStrategy ⟨0, 0, 0, 0⟩ = "balanced" := by
  constructor
  · intro w
    unfold classifyStrategy
    dsimp only
    split_ifs <;> simp
  · with_unfolding_all decide

/-! Champion blending (`mixStrategies` in tournament-system.js). -/

/-- The genome lookups at the start of `mixStrategies`
(`eliteGenomes.get(id) || genomeDatabase.get(id)` is abstracted into one
lookup function); a missing genome makes the whole call throw, modelled
by `none`. -/
def lookupAll (find : String → Option Weights) :
    List String → Option (List Weights)
  | [] => some []
  | gid :: rest =>
    match find gid with
    | none => none
    | some w => (lookupAll find rest).map (fun ws => w :: ws)

/-- The weighted-average loop of `mixStrategies`
(`genomes.forEach((genome, i) => ...)`), carrying the element index `i`:
`mixedWeights[key] += genome.weights[key] * mixRatios[i]` for each of the
four keys. -/
def mixLoop (ratios : List Rat) : List Weights → Nat → Weights → Weights
  | [], _, acc => acc
  | g :: rest, i, acc =>
    mixLoop ratios rest (i + 1)
      ⟨acc.aggregateHeight + g.aggregateHeight * ratios.getD i 0,
       acc.completeLines + g.completeLines * ratios.getD i 0,
       acc.holes + g.holes * ratios.getD i 0,
       acc.bumpiness + g.bumpiness * ratios.getD i 0⟩

/-- The weighted average of all weights, starting from the all-zero
`mixedWeights` object. -/
def mixWeightsCore (gs : List Weights) (ratios : List Rat) : Weights :=
  mixLoop ratios gs 0 ⟨0, 0, 0, 0⟩

/-- `mixStrategies(genomeIds, mixRatios)` from tournament-system.js,
restricted to the weight computation: resolve the genomes, default the
ratios to the uniform `1/n` vector, and blend.  The subsequent
`registerGenome` bookkeeping does not affect the produced weights. -/
def mixStrategies (find : String → Option Weights) (genomeIds : List String)
    (mixRatios : Option (List Rat)) : Option Weights :=
  match lookupAll find genomeIds with
  | none => none
  | some gs =>
    let ratios := mixRatios.getD (List.replicate gs.length (1 / (gs.length : Rat)))
    some (mixWeightsCore gs ratios)

/-- C8: blending two parents with mix ratios `[α, 1-α]` produces a child
whose four weights are `parent1[w]*α + parent2[w]*(1-α)`; in particular
with `α = 1` the child's weights equal parent1's and with `α = 0`
parent2's. -/
theorem mixStrategies_two_parent_blend (find : String → Option Weights)
    (id1 id2 : String) (p1 p2 : Weights) (α : Rat)
    (h1 : find id1 = some p1) (h2 : find id2 = some p2) :
    mixStrategies find [id1, id2] (some [α, 1 - α]) =
      some ⟨p1.aggregateHeight * α + p2.aggregateHeight * (1 - α),
            p1.completeLines * α + p2.completeLines * (1 - α),
            p1.holes * α + p2.holes * (1 - α),
            p1.bumpiness * α + p2.bumpiness * (1 - α)⟩ ∧
    mixStrategies find [id1, id2] (some [1, 1 - 1]) = some p1 ∧
    mixStrategies find [id1, id2] (some [0, 1 - 0]) = some p2 := by
  have hmix : ∀ r1 r2 : Rat, mixStrategies find [id1, id2] (some [r1, r2]) =
      some ⟨p1.aggregateHeight * r1 + p2.aggregateHeight * r2,
            p1.completeLines * r1 + p2.completeLines * r2,
            p1.holes * r1 + p2.holes * r2,
            p1.bumpiness * r1 + p2.bumpiness * r2⟩ := by
    intro r1 r2
    simp only [mixStrategies, lookupAll, h1, h2, Option.map_some',
      Option.getD_some, mixWeightsCore, mixLoop, List.getD_cons_zero,
      List.getD_cons_succ, Option.some.injEq]
    refine Weights.ext ?_ ?_ ?_ ?_ <;> (dsimp only; ring)
  refine ⟨hmix α (1 - α), ?_, ?_⟩
  · rw [hmix 1 (1 - 1)]
    norm_num
  · rw [hmix 0 (1 - 0)]
    norm_num

/-- C8 witness: the two-parent blend applied in a concrete two-genome
database with blend ratio 1/4. -/
theorem mixStrategies_two_parent_blend_witness :
    mixStrategies
        (fun gid => if gid = "P1" then some ⟨1, 2, 3, 4⟩
          else if gid = "P2" then some ⟨5, 6, 7, 8⟩ else none)
        ["P1", "P2"] (some [1/4, 1 - 1/4]) =
      some ⟨(1 : Rat) * (1/4) + 5 * (1 - 1/4),
            (2 : Rat) * (1/4) + 6 * (1 - 1/4),
            (3 : Rat) * (1/4) + 7 * (1 - 1/4),
            (4 : Rat) * (1/4) + 8 * (1 - 1/4)⟩ :=
  (mixStrategies_two_parent_blend
    (fun gid => if gid = "P1" then some ⟨1, 2, 3, 4⟩
      else if gid = "P2" then some ⟨5, 6, 7, 8⟩ else none)
    "P1" "P2" ⟨1, 2, 3, 4⟩ ⟨5, 6, 7, 8⟩ (1/4) (by simp) (by simp)).1

/-! Performance bookkeeping (`updatePerformance` in tournament-system.js). -/

/-- The fields of a game result consumed by `updatePerformance`. -/
structure GameResult where
  score : Rat
  lines : Rat
  survivalTime : Rat
deriving DecidableEq

/-- The per-genome record fields read and written by `updatePerformance`
(`metadata.totalGamesPlayed`, `metadata.bestScore`, `performance.avgScore`,
`performance.avgSurvivalTime`, `performance.maxLines`, flattened into one
record). -/
structure GenomeRec where
  totalGamesPlayed : Nat
  bestScore : Rat
  avgScore : Rat
  avgSurvivalTime : Rat
  maxLines : Rat
deriving DecidableEq

/-- The mutation `updatePerformance` applies to a found genome: increment
the games counter, raise the best score to the max, and update the running
averages with the new counter `n`. -/
def applyGameResult (g : GenomeRec) (r : GameResult) : GenomeRec :=
  let n := g.totalGamesPlayed + 1
  { totalGamesPlayed := n
    bestScore := max g.bestScore r.score
    avgScore := (((n : Rat) - 1) * g.avgScore + r.score) / (n : Rat)
    avgSurvivalTime :=
      (((n : Rat) - 1) * g.avgSurvivalTime + r.survivalTime) / (n : Rat)
    maxLines := max g.maxLines r.lines }

/-- `updatePerformance(genomeId, gameResult)` from tournament-system.js:
a missing genome returns with no change; otherwise the genome's record is
replaced in the database (the `Map` is modelled as a function from ids). -/
def updatePerformance (db : String → Option GenomeRec) (genomeId : String)
    (r : GameResult) : String → Option GenomeRec :=
  match db genomeId with
  | none => db
  | some g =>
    fun gid => if gid = genomeId then some (applyGameResult g r) else db gid

theorem updatePerformance_found (db : String → Option GenomeRec)
    (genomeId : String) (r : GameResult) (g : GenomeRec)
    (hg : db genomeId = some g) :
    updatePerformance db genomeId r =
      fun gid => if gid = genomeId then some (applyGameResult g r)
        else db gid := by
  unfold updatePerformance
  rw [hg]

theorem foldl_updatePerformance (genomeId : String) :
    ∀ (rs : List GameResult) (db : String → Option GenomeRec)
      (g : GenomeRec), db genomeId = some g →
      ∃ gn, (rs.foldl (fun d r => updatePerformance d genomeId r) db)
          genomeId = some gn ∧
        gn.totalGamesPlayed = g.totalGamesPlayed + rs.length ∧
        gn.avgScore * (gn.totalGamesPlayed : Rat) =
          g.avgScore * (g.totalGamesPlayed : Rat) +
            (rs.map (fun r => r.score)).sum := by
  intro rs
  induction rs with
  | nil => intro db g hg; exact ⟨g, hg, by simp, by simp⟩
  | cons r rest ih =>
    intro db g hg
    have hdb' : (updatePerformance db genomeId r) genomeId =
        some (applyGameResult g r) := by
      rw [updatePerformance_found db genomeId r g hg]
      simp
    obtain ⟨gn, hfold, hcount, hsum⟩ :=
      ih (updatePerformance db genomeId r) (applyGameResult g r) hdb'
    have happ : (applyGameResult g r).totalGamesPlayed =
        g.totalGamesPlayed + 1 := rfl
    refine ⟨gn, by simpa using hfold, by rw [hcount, happ, List.length_cons]; omega, ?_⟩
    rw [hsum]
    have hstep : (applyGameResult g r).avgScore *
        ((applyGameResult g r).totalGamesPlayed : Rat) =
        g.avgScore * (g.totalGamesPlayed : Rat) + r.score := by
      unfold applyGameResult
      dsimp only
      have hne : ((g.totalGamesPlayed + 1 : Nat) : Rat) ≠ 0 := by
        exact_mod_cast Nat.succ_ne_zero g.totalGamesPlayed
      field_simp
      ring
    rw [hstep, List.map_cons, List.sum_cons]
    ring

/-- C5: updating the record of a genome present in the database stores
exactly the updated record (best score raised to the max of old and new,
hence never decreased; games counter incremented by one), modifies no
other genome's record, and, starting from a fresh record (0 games played,
0 average), any run of n successive updates leaves the recorded average
equal to the arithmetic mean of the n submitted scores. -/
theorem updatePerformance_spec (db : String → Option GenomeRec)
    (genomeId : String) (g : GenomeRec) (r : GameResult)
    (hg : db genomeId = some g) :
    (updatePerformance db genomeId r) genomeId =
      some (applyGameResult g r) ∧
    g.bestScore ≤ (applyGameResult g r).bestScore ∧
    (applyGameResult g r).bestScore = max g.bestScore r.score ∧
    (applyGameResult g r).totalGamesPlayed = g.totalGamesPlayed + 1 ∧
    (∀ gid, gid ≠ genomeId → (updatePerformance db genomeId r) gid = db gid) ∧
    (∀ (rs : List GameResult) (db0 : String → Option GenomeRec)
       (g0 : GenomeRec), db0 genomeId = some g0 →
       g0.totalGamesPlayed = 0 → g0.avgScore = 0 →
       ∃ gn, (rs.foldl (fun d r' => updatePerformance d genomeId r') db0)
           genomeId = some gn ∧
         gn.totalGamesPlayed = rs.length ∧
         gn.avgScore = (rs.map (fun r' => r'.score)).sum / (rs.length : Rat)) := by
  refine ⟨?_, le_max_left _ _, rfl, rfl, ?_, ?_⟩
  · rw [updatePerformance_found db genomeId r g hg]
    simp
  · intro gid hne
    rw [updatePerformance_found db genomeId r g hg]
    simp [hne]
  · intro rs db0 g0 h0 hcount0 havg0
    obtain ⟨gn, hf, hc, hs⟩ := foldl_updatePerformance genomeId rs db0 g0 h0
    rw [hcount0] at hc
    rw [havg0, hcount0] at hs
    simp only [Nat.cast_zero, mul_zero, zero_mul, zero_add, Nat.zero_add] at hs hc
    refine ⟨gn, hf, hc, ?_⟩
    rcases Nat.eq_zero_or_pos rs.length with hlen | hlen
    · rcases List.length_eq_zero.mp hlen with rfl
      simp only [List.foldl_nil] at hf
      have : g0 = gn := Option.some_injective _ (h0.symm.trans hf)
      subst this
      simp [havg0]
    · have hne : ((rs.length : Rat)) ≠ 0 := by
        exact_mod_cast Nat.pos_iff_ne_zero.mp hlen
      rw [eq_div_iff hne, ← hs, hc]

/-- C5 witness: one update of a fresh genome in a one-entry database. -/
theorem updatePerformance_spec_witness :
    (updatePerformance
        (fun gid => if gid = "A" then some ⟨0, 0, 0, 0, 0⟩ else none)
        "A" ⟨10, 1, 2⟩) "A" =
      some (applyGameResult ⟨0, 0, 0, 0, 0⟩ ⟨10, 1, 2⟩) :=
  (updatePerformance_spec
    (fun gid => if gid = "A" then some ⟨0, 0, 0, 0, 0⟩ else none)
    "A" ⟨0, 0, 0, 0, 0⟩ ⟨10, 1, 2⟩ (by simp)).1

/-! The tournament engine (`TournamentEngine.runTournament` in server.js),
modelled as a pure transition on the SQLite-backed state.  Only the
columns the engine reads or writes are carried. -/

/-- A row of the `genomes` table (columns used by the engine). -/
structure GenomeRow where
  id : String
  aggregate_height : Rat
  complete_lines : Rat
  holes : Rat
  bumpiness : Rat
  best_score : Rat
  tournament_wins : Nat
  strategy_type : Option String
deriving DecidableEq

/-- A row of the `tournaments` table: the engine's insert (`'running'`)
followed by its completion update is collapsed into the final row. -/
structure TournamentRow where
  id : Nat
  status : String
  seed : Nat
  winner_id : Option String
  total_participants : Nat
deriving DecidableEq

/-- A row of the `tournament_entries` table (columns used by the engine);
`rank` is null until the ranking update. -/
structure EntryRow where
  tournament_id : Nat
  genome_id : String
  avg_score : Rat
  max_score : Nat
  total_lines : Nat
  games_played : Nat
  rank : Option Nat
deriving DecidableEq

/-- A row of the `elite_genomes` table. -/
structure EliteRow where
  genome_id : String
  total_tournament_wins : Nat
  avg_tournament_score : Rat
  dominance_score : Rat
deriving DecidableEq

/-- A row of the `strategy_stats` table. -/
structure StratRow where
  strategy_type : String
  total_genomes : Nat
  avg_score : Rat
  best_score : Nat
deriving DecidableEq

/-- The stored state touched by `runTournament`. -/
structure DbState where
  genomes : List GenomeRow
  tournaments : List TournamentRow
  entries : List EntryRow
  elites : List EliteRow
  stats : List StratRow
deriving DecidableEq

/-- Genome ids appearing in entries of completed tournaments (the `NOT
IN` subquery of the pending-genome selection). -/
def completedEntryGenomeIds (s : DbState) : List String :=
  (s.entries.filter (fun e =>
    (s.tournaments.filter (fun t => t.status == "completed")).any
      (fun t => t.id == e.tournament_id))).map (fun e => e.genome_id)

/-- The pending-genome query of `runTournament`: genomes with no entry in
a completed tournament, ordered by `best_score` descending, limited
to 50. -/
def pendingGenomes (s : DbState) : List GenomeRow :=
  ((s.genomes.filter
      (fun g => !((completedEntryGenomeIds s).contains g.id))).mergeSort
    (fun a b => b.best_score ≤ a.best_score)).take 50

/-- The hard-coded tournament configuration of `runTournament`. -/
def tournamentConfig : SimConfig :=
  { gamesPerGenome := 10, maxPieces := 2000, boardWidth := 10
    boardHeight := 20, pieceTypes := 7 }

/-- The aggregate object returned by `simulateTetrisGames`. -/
structure GamesSummary where
  avgScore : Rat
  maxScore : Nat
  totalLines : Nat
  games : List SimResult
deriving DecidableEq

/-- The weight vector read off a genome row in `simulateSingleGame`. -/
def weightsOfRow (g : GenomeRow) : Weights :=
  ⟨g.aggregate_height, g.complete_lines, g.holes, g.bumpiness⟩

/-- `simulateTetrisGames(genome, config, seed)` from server.js: play
`gamesPerGenome` games and aggregate score statistics.  The seeded
`seedrandom(seed + genome.id)` generator is abstracted as a per-game
random stream parameter. -/
def simulateTetrisGames (g : GenomeRow) (cfg : SimConfig)
    (rng : Nat → Nat → Rat) : GamesSummary :=
  let games := (List.range cfg.gamesPerGenome).map
    (fun i => simulateSingleGame (weightsOfRow g) cfg (rng i))
  { avgScore := ((games.map (fun r => (r.score : Rat))).sum) /
      (cfg.gamesPerGenome : Rat)
    maxScore := games.foldl (fun m r => max m r.score) 0
    totalLines := (games.map (fun r => r.lines)).sum
    games := games }

/-- `INSERT OR REPLACE` into a keyed table. -/
def upsertElite (elites : List EliteRow) (row : EliteRow) : List EliteRow :=
  row :: elites.filter (fun e => e.genome_id != row.genome_id)

/-- `INSERT OR REPLACE` into the strategy table. -/
def upsertStrat (stats : List StratRow) (row : StratRow) : List StratRow :=
  row :: stats.filter (fun e => e.strategy_type != row.strategy_type)

/-- `result.genome.strategy_type || 'unknown'` (a null or empty string is
falsy). -/
def orUnknown (s : Option String) : String :=
  match s with
  | none => "unknown"
  | some v => if v = "" then "unknown" else v

/-- Strategy names in first-appearance order (the iteration order of the
`strategyGroups` object keys). -/
def firstSeen : List String → List String
  | [] => []
  | s :: rest => s :: (firstSeen rest).filter (fun x => x != s)

/-- `updateStrategyStats(results)` from server.js: group results by
strategy, compute the group average and maximum, and upsert one row per
strategy. -/
def updateStrategyStats (results : List (GenomeRow × GamesSummary))
    (stats0 : List StratRow) : List StratRow :=
  (firstSeen (results.map (fun rg => orUnknown rg.1.strategy_type))).foldl
    (fun st s =>
      let group := results.filter
        (fun rg => orUnknown rg.1.strategy_type == s)
      upsertStrat st
        ⟨s, group.length,
          (group.map (fun rg => rg.2.avgScore)).sum / (group.length : Rat),
          group.foldl (fun m rg => max m rg.2.maxScore) 0⟩)
    stats0

/-- Placeholder row used for list reads that cannot miss on the taken
branch (`results[0]` and `results[eliteCount - 1]` with at least two
results). -/
def defaultResult : GenomeRow × GamesSummary :=
  (⟨"", 0, 0, 0, 0, 0, 0, none⟩, ⟨0, 0, 0, []⟩)

/-- `TournamentEngine.runTournament` from server.js as a state
transition: with fewer than two pending genomes it resolves `null` and
performs no write; otherwise it simulates games for every pending genome,
inserts the tournament row (its `'running'` insert collapsed with the
completion update), inserts ranked entries, bumps the winner's
`tournament_wins`, upserts the top-10% elite rows and refreshes the
strategy statistics, resolving the new tournament id.  `Math.random()`
seeding and `seedrandom` are abstracted as the `seed` and `rng`
parameters; the `AUTOINCREMENT` id is modelled as one past the number of
stored tournaments. -/
def runTournament (s : DbState) (seed : Nat)
    (rng : String → Nat → Nat → Rat) : Option Nat × DbState :=
  let gs := pendingGenomes s
  if gs.length < 2 then (none, s)
  else
    let cfg := tournamentConfig
    let tournamentId := s.tournaments.length + 1
    let results := gs.map (fun g => (g, simulateTetrisGames g cfg (rng g.id)))
    let newEntries : List EntryRow := results.map (fun rg =>
      ⟨tournamentId, rg.1.id, rg.2.avgScore, rg.2.maxScore, rg.2.totalLines,
        cfg.gamesPerGenome, none⟩)
    let ranked := results.mergeSort (fun a b => b.2.avgScore ≤ a.2.avgScore)
    let rankOf := fun (gid : String) =>
      (ranked.enum.find? (fun p => p.2.1.id == gid)).map (fun p => p.1 + 1)
    let finalEntries := newEntries.map
      (fun e => { e with rank := rankOf e.genome_id })
    let winner := (ranked.headD defaultResult).1
    let newGenomes := s.genomes.map (fun g =>
      if g.id == winner.id then { g with tournament_wins := g.tournament_wins + 1 }
      else g)
    let eliteCount := max 1 (results.length / 10)
    let lastEliteAvg := (ranked.getD (eliteCount - 1) defaultResult).2.avgScore
    let newElites := (List.range eliteCount).foldl
      (fun el i =>
        let elite := ranked.getD i defaultResult
        upsertElite el
          ⟨elite.1.id,
            (((el.find? (fun e => e.genome_id == elite.1.id)).map
              (fun e => e.total_tournament_wins)).getD 0) +
              (if i = 0 then 1 else 0),
            elite.2.avgScore,
            elite.2.avgScore / (max 1 lastEliteAvg)⟩)
      s.elites
    (some tournamentId,
      ⟨newGenomes,
        s.tournaments ++
          [⟨tournamentId, "completed", seed, some winner.id, gs.length⟩],
        s.entries ++ finalEntries,
        newElites,
        updateStrategyStats results s.stats⟩)

/-- C7: when fewer than two genomes are pending, `runTournament` resolves
with no tournament id and leaves the whole stored state unchanged — no
tournament row, no entries, no elite rows, no statistics and no genome
record are created or modified. -/
theorem runTournament_too_few_genomes (s : DbState) (seed : Nat)
    (rng : String → Nat → Nat → Rat)
    (h : (pendingGenomes s).length < 2) :
    runTournament s seed rng = (none, s) := by
  unfold runTournament
  rw [if_pos h]

/-- C7 witness: the empty database has no pending genomes, and running a
tournament on it reports no tournament id and changes nothing. -/
theorem runTournament_too_few_genomes_witness :
    (pendingGenomes ⟨[], [], [], [], []⟩).length < 2 ∧
    runTournament ⟨[], [], [], [], []⟩ 0 (fun _ _ _ => 0) =
      (none, ⟨[], [], [], [], []⟩) := by
  have hp : pendingGenomes ⟨[], [], [], [], []⟩ = [] := by
    simp [pendingGenomes, completedEntryGenomeIds]
  refine ⟨by rw [hp]; decide, ?_⟩
  exact runTournament_too_few_genomes ⟨[], [], [], [], []⟩ 0 (fun _ _ _ => 0)
    (by rw [hp]; decide)

end Tetris
